import Mathlib

set_option maxHeartbeats 1000000

/-- Values of parsed JSON data as manipulated by the target: null, booleans,
integers, strings, arrays, and objects.  Python dicts preserve insertion
order, so objects are ordered key-value lists. -/
inductive JVal where
  | vnull
  | vbool (b : Bool)
  | vint (n : Int)
  | vstr (s : String)
  | vlist (xs : List JVal)
  | vmap (kvs : List (String × JVal))

/-- Test for the null value (Python None). -/
def JVal.isNull : JVal → Bool
  | JVal.vnull => true
  | _ => false

/-- Test for an array value (Python list). -/
def JVal.isList : JVal → Bool
  | JVal.vlist _ => true
  | _ => false

/-- Test for an object value (Python MutableMapping). -/
def JVal.isMap : JVal → Bool
  | JVal.vmap _ => true
  | _ => false

/-- Lookup in a Python dict represented as an ordered key-value list. -/
def dictGet {α : Type} : List (String × α) → String → Option α
  | [], _ => none
  | (k, v) :: rest, key => if k = key then some v else dictGet rest key

/-- The keys of a Python dict, in order. -/
def dictKeys {α : Type} (d : List (String × α)) : List String :=
  d.map Prod.fst

/-- Assignment d[k] = v on a Python dict: an existing key keeps its position
and gets the new value; a new key is appended at the end. -/
def dictInsert {α : Type} (d : List (String × α)) (k : String) (v : α) :
    List (String × α) :=
  if (dictGet d k).isSome then
    d.map (fun p => if p.1 = k then (k, v) else p)
  else d ++ [(k, v)]

/-- Python dict(items): fold the pairs into an empty dict by assignment. -/
def dictOfList {α : Type} (l : List (String × α)) : List (String × α) :=
  l.foldl (fun d p => dictInsert d p.1 p.2) []

mutual

/-- Python repr of a JSON value (str and repr agree except on strings). -/
def pyRepr : JVal → String
  | JVal.vnull => "None"
  | JVal.vbool b => if b then "True" else "False"
  | JVal.vint n => toString n
  | JVal.vstr s => "\x27" ++ s ++ "\x27"
  | JVal.vlist xs => "[" ++ pyReprList xs ++ "]"
  | JVal.vmap kvs => "\x7b" ++ pyReprMap kvs ++ "\x7d"

/-- Comma-separated reprs of the elements of a Python list. -/
def pyReprList : List JVal → String
  | [] => ""
  | [v] => pyRepr v
  | v :: rest => pyRepr v ++ ", " ++ pyReprList rest

/-- Comma-separated key: value reprs of the items of a Python dict. -/
def pyReprMap : List (String × JVal) → String
  | [] => ""
  | [(k, v)] => "\x27" ++ k ++ "\x27: " ++ pyRepr v
  | (k, v) :: rest => "\x27" ++ k ++ "\x27: " ++ pyRepr v ++ ", " ++ pyReprMap rest

end

/-- The item list built by target_csv.flatten before the final dict() call.
Lines 35-43 of src/target_csv.py: nested mappings recurse with the joined
key (the recursive call returns a dict, so items of sub-dicts are already
deduplicated), list values are replaced by str(value), and every other
value passes through. -/
def flattenItems : List (String × JVal) → String → String → List (String × JVal)
  | [], _, _ => []
  | (k, JVal.vmap kvs) :: rest, parent_key, sep =>
    let new_key := if parent_key = "" then k else parent_key ++ sep ++ k
    dictOfList (flattenItems kvs new_key sep) ++ flattenItems rest parent_key sep
  | (k, JVal.vlist xs) :: rest, parent_key, sep =>
    let new_key := if parent_key = "" then k else parent_key ++ sep ++ k
    (new_key, JVal.vstr (pyRepr (JVal.vlist xs))) :: flattenItems rest parent_key sep
  | (k, v) :: rest, parent_key, sep =>
    let new_key := if parent_key = "" then k else parent_key ++ sep ++ k
    (new_key, v) :: flattenItems rest parent_key sep

/-- flatten from src/target_csv.py lines 35-43 (identical to
TargetHelper.flatten in src/target_helper.py lines 20-29): build the item
list and return dict(items). -/
def flatten (d : List (String × JVal)) (parent_key : String) (sep : String) :
    List (String × JVal) :=
  dictOfList (flattenItems d parent_key sep)

/-- The per-stream entry of the external field-mapping file: the values
stored under the keys "to", "field_mappings" and "fields_mapping" of the
JSON object, when present. -/
structure StreamMapping where
  toFile : Option String
  field_mappings : Option (List (String × String))
  fields_mapping : Option (List (String × String))

/-- Python fm.get(k, k): rename a key through a mapping, identity when the
key has no entry. -/
def renameKey (fm : List (String × String)) (k : String) : String :=
  (dictGet fm k).getD k

/-- transform from src/target_csv.py lines 46-48: reads the stream mapping
entry under the key "field_mappings" (note the spelling) and rebuilds the
record as a dict comprehension over renamed keys. -/
def transform (records : List (String × JVal)) (stream_mappings : StreamMapping) :
    List (String × JVal) :=
  let field_mappings := stream_mappings.field_mappings.getD []
  dictOfList (records.map (fun p => (renameKey field_mappings p.1, p.2)))

/-- TargetHelper.transform from src/target_helper.py lines 49-52: identical
to transform except that it reads the entry under the key "fields_mapping". -/
def TargetHelper.transform (records : List (String × JVal))
    (stream_mappings : StreamMapping) : List (String × JVal) :=
  let fields_mapping := stream_mappings.fields_mapping.getD []
  dictOfList (records.map (fun p => (renameKey fields_mapping p.1, p.2)))

/-- Conversion of one cell value by csv.writer: None becomes the empty
string, strings are written as-is, all other values are written via str. -/
def csvField : JVal → String
  | JVal.vnull => ""
  | JVal.vstr s => s
  | v => pyRepr v

/-- The data row csv.DictWriter writes for a record (target_csv.py lines
98-106): one cell per header column in order; a missing key yields the
restval (empty); keys outside the header are ignored (extrasaction
ignore). -/
def rowFor (header : List String) (r : List (String × JVal)) : List String :=
  header.map (fun c => csvField ((dictGet r c).getD JVal.vnull))

/-- A parsed singer message, as dispatched by persist_messages. -/
inductive Msg where
  | record (stream : String) (rec : List (String × JVal))
  | state (value : JVal)
  | schema (stream : String) (sch : JVal) (key_properties : List String)
  | unknown

/-- Fatal errors raised inside the message loop. -/
inductive Err where
  | unknownStream (stream : String)
  | keyError (stream : String)
  | validationError (stream : String)
deriving DecidableEq

/-- The mutable state of persist_messages (target_csv.py lines 52-57): the
pending checkpoint (Python None modelled as the null value), the per-stream
schemas, key properties, headers and validators (a validator is determined
by the schema it was compiled from), plus the destination file system,
mapping a filename to its list of CSV rows. -/
structure PState where
  state : JVal
  schemas : List (String × JVal)
  key_properties : List (String × List String)
  headers : List (String × List String)
  validators : List (String × JVal)
  fs : List (String × List (List String))

/-- The run configuration: delimiter and quotechar, destination path, the
loaded field-mapping file, the run timestamp, and the Draft4 validation
oracle (an external library, abstracted as a boolean function of the schema
and the record). -/
structure Config where
  delimiter : Char
  quotechar : Char
  destination_path : String
  mappings : List (String × StreamMapping)
  now : String
  valid : JVal → List (String × JVal) → Bool

/-- The state at the top of persist_messages, over a pre-existing file
system. -/
def initState (fs0 : List (String × List (List String))) : PState :=
  ⟨JVal.vnull, [], [], [], [], fs0⟩

/-- The stream mapping entry mappings.get(stream, \x7b\x7d). -/
def smFor (cfg : Config) (stream : String) : StreamMapping :=
  (dictGet cfg.mappings stream).getD ⟨none, none, none⟩

/-- os.path.join of the destination path and a file name. -/
def pathJoin (dir f : String) : String :=
  if dir = "" then f else if dir.endsWith "/" then dir ++ f else dir ++ "/" ++ f

/-- The destination filename of a stream (target_csv.py lines 81-82):
the "to" override or stream-timestamp, with the .csv extension, joined to
the destination path. -/
def filenameFor (cfg : Config) (stream : String) : String :=
  pathJoin cfg.destination_path
    (((smFor cfg stream).toFile.getD (stream ++ "-" ++ cfg.now)) ++ ".csv")

/-- Processing of one RECORD message past the guards (target_csv.py lines
79-108): resolve the filename, flatten and transform the record, determine
the header (from the first line of a non-empty existing file, else from the
transformed keys), append the header line when the file was empty or absent
followed by the data row, and clear the pending state. -/
def appendRecord (cfg : Config) (s : PState) (stream : String)
    (rec : List (String × JVal)) : PState :=
  let stream_mapping := smFor cfg stream
  let filename := filenameFor cfg stream
  let fileRows := (dictGet s.fs filename).getD []
  let flattened_record := flatten rec "" "__"
  let transformed_records := transform flattened_record stream_mapping
  let headers' :=
    if dictGet s.headers stream = none ∧ ¬fileRows = [] then
      let first_line := fileRows.headD []
      dictInsert s.headers stream
        (if first_line = [] then dictKeys transformed_records else first_line)
    else if fileRows = [] then
      dictInsert s.headers stream (dictKeys transformed_records)
    else s.headers
  let h := (dictGet headers' stream).getD []
  { s with
    headers := headers',
    fs := dictInsert s.fs filename
      (fileRows ++ (if fileRows = [] then [h] else []) ++ [rowFor h transformed_records]),
    state := JVal.vnull }

/-- One iteration of the message loop of persist_messages (target_csv.py
lines 65-119): a RECORD with no registered schema is fatal, then the record
is validated and appended; a STATE message overwrites the pending state; a
SCHEMA message registers schema, validator and key properties; unknown
message types are logged and skipped. -/
def step (cfg : Config) (s : PState) : Msg → Except Err PState
  | Msg.record stream rec =>
    if (dictGet s.schemas stream).isNone then
      Except.error (Err.unknownStream stream)
    else
      match dictGet s.validators stream with
      | none => Except.error (Err.keyError stream)
      | some sch =>
        if cfg.valid sch rec then Except.ok (appendRecord cfg s stream rec)
        else Except.error (Err.validationError stream)
  | Msg.state v => Except.ok { s with state := v }
  | Msg.schema stream sch kp =>
    Except.ok { s with
      schemas := dictInsert s.schemas stream sch,
      validators := dictInsert s.validators stream sch,
      key_properties := dictInsert s.key_properties stream kp }
  | Msg.unknown => Except.ok s

/-- The message loop: process messages in order, stopping at the first
fatal error and reporting the state reached just before it. -/
def runAcc (cfg : Config) : List Msg → PState → PState × Option Err
  | [], s => (s, none)
  | m :: ms, s =>
    match step cfg s m with
    | Except.ok s' => runAcc cfg ms s'
    | Except.error e => (s, some e)

/-- emit_state from src/target_csv.py lines 27-32: one serialized line when
the state is not None, nothing otherwise.  Modelled as the list of emitted
state values. -/
def emit_state (state : JVal) : List JVal :=
  if state.isNull then [] else [state]

/-- The checkpoint lines the whole run writes to stdout: main calls
emit_state on the return value of persist_messages; on a fatal error the
process dies before emitting anything. -/
def runEmitted (cfg : Config) (msgs : List Msg) (s0 : PState) : List JVal :=
  match runAcc cfg msgs s0 with
  | (s, none) => emit_state s.state
  | (_, some _) => []

/-- The non-mapping leaf values of a nested record, in traversal order. -/
def leaves : List (String × JVal) → List JVal
  | [] => []
  | (_, JVal.vmap kvs) :: rest => leaves kvs ++ leaves rest
  | (_, v) :: rest => v :: leaves rest

/-- What flatten does to one leaf value: lists become their str, everything
else passes through. -/
def leafOut : JVal → JVal
  | JVal.vlist xs => JVal.vstr (pyRepr (JVal.vlist xs))
  | v => v

/-- Recognizer for SCHEMA messages of a given stream. -/
def isSchemaFor (A : String) : Msg → Bool
  | Msg.schema stream _ _ => stream = A
  | _ => false

/-- Recognizer for RECORD messages of a given stream. -/
def isRecordFor (A : String) : Msg → Bool
  | Msg.record stream _ => stream = A
  | _ => false

/-- Invariant of the message loop: a stream with a determined header has a
non-empty destination file.  It holds at initState (no headers yet) and is
preserved by every step, because determining a header is immediately
followed by appending at least one row to that same file. -/
def HeaderInv (cfg : Config) (s : PState) : Prop :=
  ∀ stream h, dictGet s.headers stream = some h →
    ∃ rows, dictGet s.fs (filenameFor cfg stream) = some rows ∧ rows ≠ []

/-- A concrete configuration for concrete runs: default delimiter and
quotechar, empty destination path, no field-mapping file, a fixed
timestamp, and the validator compiled from an empty schema, which accepts
every record. -/
def cfgEx : Config :=
  ⟨',', '"', "", [], "20200101T000000", fun _ _ => true⟩

theorem dictGet_append_of_none {α : Type} {d : List (String × α)} {key : String}
    (e : List (String × α)) (h : dictGet d key = none) :
    dictGet (d ++ e) key = dictGet e key := by
  induction d with
  | nil => rfl
  | cons p rest ih =>
    obtain ⟨k, v⟩ := p
    simp only [dictGet] at h ⊢
    split at h
    · exact absurd h (by simp)
    · simp [*, ih h]

theorem dictGet_append_of_some {α : Type} {d : List (String × α)} {key : String}
    {v : α} (e : List (String × α)) (h : dictGet d key = some v) :
    dictGet (d ++ e) key = some v := by
  induction d with
  | nil => simp [dictGet] at h
  | cons p rest ih =>
    obtain ⟨k, w⟩ := p
    simp only [dictGet] at h ⊢
    split at h <;> simp_all

theorem dictGet_replace_self {α : Type} (k : String) (v : α) :
    ∀ (d : List (String × α)), (dictGet d k).isSome →
      dictGet (d.map (fun p => if p.1 = k then (k, v) else p)) k = some v := by
  intro d hd
  induction d with
  | nil => simp [dictGet] at hd
  | cons p rest ih =>
    obtain ⟨k0, v0⟩ := p
    simp only [List.map_cons]
    by_cases h : k0 = k
    · subst h
      rw [show (if ((k0, v0) : String × α).1 = k0 then (k0, v) else (k0, v0)) = (k0, v) from
        if_pos rfl]
      simp [dictGet]
    · rw [show (if ((k0, v0) : String × α).1 = k then (k, v) else (k0, v0)) = (k0, v0) from
        if_neg h]
      have hs' : (dictGet rest k).isSome := by simpa [dictGet, h] using hd
      simp [dictGet, h, ih hs']

theorem dictGet_replace_ne {α : Type} (k : String) (v : α) (key : String)
    (hkey : key ≠ k) :
    ∀ (d : List (String × α)),
      dictGet (d.map (fun p => if p.1 = k then (k, v) else p)) key = dictGet d key := by
  intro d
  induction d with
  | nil => rfl
  | cons p rest ih =>
    obtain ⟨k0, v0⟩ := p
    simp only [List.map_cons]
    by_cases h : k0 = k
    · subst h
      rw [show (if ((k0, v0) : String × α).1 = k0 then (k0, v) else (k0, v0)) = (k0, v) from
        if_pos rfl]
      have h1 : ¬k0 = key := fun hh => hkey hh.symm
      simp [dictGet, h1, ih]
    · rw [show (if ((k0, v0) : String × α).1 = k then (k, v) else (k0, v0)) = (k0, v0) from
        if_neg h]
      simp [dictGet, ih]

theorem dictGet_insert {α : Type} (d : List (String × α)) (k : String) (v : α)
    (key : String) :
    dictGet (dictInsert d k v) key = if key = k then some v else dictGet d key := by
  unfold dictInsert
  split
  case isTrue hs =>
    by_cases hkey : key = k
    · subst hkey; simp [dictGet_replace_self key v d hs]
    · simp [hkey, dictGet_replace_ne k v key hkey d]
  case isFalse hs =>
    have hnone : dictGet d k = none := by
      cases h : dictGet d k with
      | none => rfl
      | some w => rw [h] at hs; simp at hs
    by_cases hkey : key = k
    · subst hkey
      rw [dictGet_append_of_none _ hnone]
      simp [dictGet, hnone]
    · simp only [if_neg hkey]
      cases h : dictGet d key with
      | none =>
        rw [dictGet_append_of_none _ h]
        simp only [dictGet]
        rw [if_neg (fun hh : k = key => hkey hh.symm)]
      | some w => exact dictGet_append_of_some _ h

theorem dictGet_eq_none_iff {α : Type} (d : List (String × α)) (key : String) :
    dictGet d key = none ↔ key ∉ dictKeys d := by
  induction d with
  | nil => simp [dictGet, dictKeys]
  | cons p rest ih =>
    obtain ⟨k, v⟩ := p
    have hk : dictKeys ((k, v) :: rest) = k :: dictKeys rest := rfl
    rw [hk]
    by_cases h : k = key
    · subst h
      constructor
      · intro hh; simp [dictGet] at hh
      · intro hh; exact absurd (List.mem_cons_self _ _) hh
    · constructor
      · intro hh hmem
        rcases List.mem_cons.mp hmem with h1 | h1
        · exact h h1.symm
        · exact (ih.mp (by simpa [dictGet, h] using hh)) h1
      · intro hh
        have h2 : key ∉ dictKeys rest := fun hm => hh (List.mem_cons_of_mem _ hm)
        simpa [dictGet, h] using ih.mpr h2

theorem dictKeys_insert {α : Type} (d : List (String × α)) (k : String) (v : α) :
    dictKeys (dictInsert d k v) =
      if (dictGet d k).isSome then dictKeys d else dictKeys d ++ [k] := by
  unfold dictInsert
  split
  case isTrue hs =>
    simp only [if_pos hs, dictKeys, List.map_map]
    apply List.map_congr_left
    intro p _
    by_cases h : p.1 = k <;> simp [h]
  case isFalse hs =>
    simp [if_neg hs, dictKeys]

theorem nodup_dictKeys_insert {α : Type} (d : List (String × α)) (k : String)
    (v : α) (h : (dictKeys d).Nodup) : (dictKeys (dictInsert d k v)).Nodup := by
  rw [dictKeys_insert]
  split
  · exact h
  case isFalse hs =>
    have hk : k ∉ dictKeys d := by
      rw [← dictGet_eq_none_iff]
      cases hh : dictGet d k with
      | none => rfl
      | some w => rw [hh] at hs; simp at hs
    simp [List.nodup_append, h, hk]

theorem nodup_dictKeys_foldl {α : Type} (l : List (String × α))
    (acc : List (String × α)) (h : (dictKeys acc).Nodup) :
    (dictKeys (l.foldl (fun d p => dictInsert d p.1 p.2) acc)).Nodup := by
  induction l generalizing acc with
  | nil => exact h
  | cons p rest ih =>
    exact ih (dictInsert acc p.1 p.2) (nodup_dictKeys_insert acc p.1 p.2 h)

theorem nodup_dictKeys_dictOfList {α : Type} (l : List (String × α)) :
    (dictKeys (dictOfList l)).Nodup :=
  nodup_dictKeys_foldl l [] (by simp [dictKeys])

theorem foldl_insert_eq_append {α : Type} (l : List (String × α)) :
    ∀ (acc : List (String × α)), (dictKeys l).Nodup →
      (∀ k ∈ dictKeys l, dictGet acc k = none) →
      l.foldl (fun d p => dictInsert d p.1 p.2) acc = acc ++ l := by
  induction l with
  | nil => intro acc _ _; simp
  | cons p rest ih =>
    intro acc hnd hdisj
    obtain ⟨k, v⟩ := p
    have hkeys : dictKeys (((k, v) :: rest) : List (String × α)) = k :: dictKeys rest := rfl
    have hnd2 : (k :: dictKeys rest).Nodup := hkeys ▸ hnd
    have hk : dictGet acc k = none := hdisj k (hkeys ▸ List.mem_cons_self _ _)
    have hins : dictInsert acc k v = acc ++ [(k, v)] := by
      unfold dictInsert
      rw [if_neg (by simp [hk])]
    have hknotin : k ∉ dictKeys rest := (List.nodup_cons.mp hnd2).1
    have hdisj' : ∀ k' ∈ dictKeys rest, dictGet (acc ++ [(k, v)]) k' = none := by
      intro k' hk'
      have h1 : dictGet acc k' = none := hdisj k' (hkeys ▸ List.mem_cons_of_mem _ hk')
      rw [dictGet_append_of_none _ h1]
      have hne : k ≠ k' := fun hh => hknotin (hh ▸ hk')
      simp [dictGet, hne]
    have hnd' : (dictKeys rest).Nodup := (List.nodup_cons.mp hnd2).2
    calc ((k, v) :: rest).foldl (fun d p => dictInsert d p.1 p.2) acc
        = rest.foldl (fun d p => dictInsert d p.1 p.2) (acc ++ [(k, v)]) := by
          simp [List.foldl_cons, hins]
      _ = (acc ++ [(k, v)]) ++ rest := ih (acc ++ [(k, v)]) hnd' hdisj'
      _ = acc ++ (k, v) :: rest := by simp

theorem dictOfList_eq_self {α : Type} (l : List (String × α))
    (h : (dictKeys l).Nodup) : dictOfList l = l := by
  have := foldl_insert_eq_append l [] h (fun k _ => rfl)
  simpa [dictOfList] using this

theorem mem_dictInsert {α : Type} (q : String × α) (d : List (String × α))
    (k : String) (v : α) (hq : q ∈ dictInsert d k v) : q ∈ d ∨ q = (k, v) := by
  unfold dictInsert at hq
  split at hq
  · obtain ⟨p, hp, hpq⟩ := List.mem_map.mp hq
    by_cases h : p.1 = k
    · right; rw [← hpq]; simp [h]
    · left; rw [← hpq]; simpa [h] using hp
  · rcases List.mem_append.mp hq with h | h
    · exact Or.inl h
    · exact Or.inr (by simpa using h)

theorem mem_foldl_insert {α : Type} (l : List (String × α)) :
    ∀ (acc : List (String × α)) (q : String × α),
      q ∈ l.foldl (fun d p => dictInsert d p.1 p.2) acc → q ∈ acc ∨ q ∈ l := by
  induction l with
  | nil => intro acc q hq; exact Or.inl hq
  | cons p rest ih =>
    intro acc q hq
    rcases ih (dictInsert acc p.1 p.2) q hq with h | h
    · rcases mem_dictInsert q acc p.1 p.2 h with h' | h'
      · exact Or.inl h'
      · right
        rw [h']
        exact List.mem_cons_self _ _
    · exact Or.inr (List.mem_cons_of_mem _ h)

theorem mem_dictOfList {α : Type} (q : String × α) (l : List (String × α))
    (hq : q ∈ dictOfList l) : q ∈ l := by
  rcases mem_foldl_insert l [] q hq with h | h
  · simp at h
  · exact h

theorem dictOfList_map_rename {α : Type} (m : List (String × α)) (f : String → String)
    (hnd : (dictKeys m).Nodup)
    (hinj : ∀ a ∈ dictKeys m, ∀ b ∈ dictKeys m, f a = f b → a = b) :
    dictOfList (m.map (fun p => (f p.1, p.2))) = m.map (fun p => (f p.1, p.2)) := by
  apply dictOfList_eq_self
  have hkeys : dictKeys (m.map (fun p => (f p.1, p.2))) = (dictKeys m).map f := by
    simp [dictKeys, List.map_map]
  rw [hkeys]
  exact hnd.map_on hinj

theorem runAcc_append_ok (cfg : Config) (xs : List Msg) :
    ∀ (ys : List Msg) (s0 s1 : PState), runAcc cfg xs s0 = (s1, none) →
      runAcc cfg (xs ++ ys) s0 = runAcc cfg ys s1 := by
  induction xs with
  | nil =>
    intro ys s0 s1 h
    have : s0 = s1 := congrArg Prod.fst h
    rw [List.nil_append, this]
  | cons m ms ih =>
    intro ys s0 s1 h
    rw [List.cons_append]
    simp only [runAcc] at h ⊢
    cases hs : step cfg s0 m with
    | ok s' =>
      rw [hs] at h
      exact ih ys s' s1 h
    | error e =>
      rw [hs] at h
      exact Option.noConfusion (show (some e : Option Err) = none from congrArg Prod.snd h)

/-- Claim C1: the spec and the external-interface documentation name the
field-mapping configuration key fields_mapping, and TargetHelper.transform
(src/target_helper.py line 51) reads that key, but the transform actually
used by the sink (src/target_csv.py line 47) reads the key field_mappings
instead.  A mapping file written with the documented key fields_mapping is
therefore silently ignored by the sink: the key "a" is not renamed to "b"
by transform, while TargetHelper.transform does rename it. -/
theorem C1_fields_mapping_key_mismatch :
    transform [("a", JVal.vint 1)] ⟨none, none, some [("a", "b")]⟩ =
      [("a", JVal.vint 1)] ∧
    TargetHelper.transform [("a", JVal.vint 1)] ⟨none, none, some [("a", "b")]⟩ =
      [("b", JVal.vint 1)] :=
  ⟨rfl, rfl⟩

/-- Claim C5 is false as stated: after the input sequence consisting of a
single STATE message with a null value, the pending checkpoint at end of
input is indeed null, but nothing is emitted — emit_state only writes when
the state is not None (src/target_csv.py line 28), so the required single
serialized line never appears. -/
theorem C5_null_checkpoint_cex :
    (runAcc cfgEx [Msg.state JVal.vnull] (initState [])).1.state = JVal.vnull ∧
    runEmitted cfgEx [Msg.state JVal.vnull] (initState []) = [] :=
  ⟨rfl, rfl⟩

/-- Claim C5 (amended): if the last STATE message of the input carries an
explicit null value and no record is appended after it, the null value is
still the pending checkpoint at end of input, but it is NOT emitted:
emit_state suppresses a null state, so no checkpoint line is written. -/
theorem C5_null_checkpoint_amended (cfg : Config) (msgs : List Msg)
    (fs0 : List (String × List (List String))) (s1 : PState)
    (h : runAcc cfg msgs (initState fs0) = (s1, none)) :
    runAcc cfg (msgs ++ [Msg.state JVal.vnull]) (initState fs0) =
      ({ s1 with state := JVal.vnull }, none) ∧
    runEmitted cfg (msgs ++ [Msg.state JVal.vnull]) (initState fs0) = [] := by
  have h2 := runAcc_append_ok cfg msgs [Msg.state JVal.vnull] (initState fs0) s1 h
  constructor
  · rw [h2]; rfl
  · unfold runEmitted; rw [h2]; rfl

/-- Witness for C5 (amended) at the empty message prefix. -/
theorem C5_null_checkpoint_amended_witness :
    runAcc cfgEx ([] ++ [Msg.state JVal.vnull]) (initState []) =
      ({ initState [] with state := JVal.vnull }, none) ∧
    runEmitted cfgEx ([] ++ [Msg.state JVal.vnull]) (initState []) = [] :=
  C5_null_checkpoint_amended cfgEx [] [] (initState []) rfl

/-- Claim C7 is false as stated: when the renaming maps the key "a" onto
the pre-existing key "b", the dict comprehension in transform collapses the
two entries, dropping the value of "a" — the values of the result are not
the values of the input, and the key "a" is gone. -/
theorem C7_remap_drops_value_cex :
    transform [("a", JVal.vint 1), ("b", JVal.vint 2)] ⟨none, some [("a", "b")], none⟩ =
      [("b", JVal.vint 2)] ∧
    JVal.vint 1 ∈ ([("a", JVal.vint 1), ("b", JVal.vint 2)] :
      List (String × JVal)).map Prod.snd ∧
    JVal.vint 1 ∉ (transform [("a", JVal.vint 1), ("b", JVal.vint 2)]
      ⟨none, some [("a", "b")], none⟩).map Prod.snd := by
  refine ⟨rfl, by simp, ?_⟩
  rw [show transform [("a", JVal.vint 1), ("b", JVal.vint 2)]
    ⟨none, some [("a", "b")], none⟩ = [("b", JVal.vint 2)] from rfl]
  simp

/-- Claim C7 (amended): provided the record's keys are distinct and the
induced renaming k to fm.get(k, k) is injective on them (no collisions),
transform and TargetHelper.transform only rename keys: the list of values
is preserved exactly, no key is dropped, and the keys of the result are
the renamed keys of the input in order. -/
theorem C7_remap_values_keys (m : List (String × JVal)) (sm : StreamMapping)
    (hnd : (dictKeys m).Nodup) :
    ((∀ a ∈ dictKeys m, ∀ b ∈ dictKeys m,
        renameKey (sm.field_mappings.getD []) a = renameKey (sm.field_mappings.getD []) b →
          a = b) →
      transform m sm = m.map (fun p => (renameKey (sm.field_mappings.getD []) p.1, p.2)) ∧
      (transform m sm).map Prod.snd = m.map Prod.snd ∧
      dictKeys (transform m sm) = (dictKeys m).map (renameKey (sm.field_mappings.getD []))) ∧
    ((∀ a ∈ dictKeys m, ∀ b ∈ dictKeys m,
        renameKey (sm.fields_mapping.getD []) a = renameKey (sm.fields_mapping.getD []) b →
          a = b) →
      TargetHelper.transform m sm =
        m.map (fun p => (renameKey (sm.fields_mapping.getD []) p.1, p.2)) ∧
      (TargetHelper.transform m sm).map Prod.snd = m.map Prod.snd ∧
      dictKeys (TargetHelper.transform m sm) =
        (dictKeys m).map (renameKey (sm.fields_mapping.getD []))) := by
  constructor
  · intro hinj
    have he : transform m sm =
        m.map (fun p => (renameKey (sm.field_mappings.getD []) p.1, p.2)) := by
      unfold transform
      exact dictOfList_map_rename m _ hnd hinj
    refine ⟨he, ?_, ?_⟩
    · rw [he]; simp [List.map_map]
    · rw [he]; simp [dictKeys, List.map_map]
  · intro hinj
    have he : TargetHelper.transform m sm =
        m.map (fun p => (renameKey (sm.fields_mapping.getD []) p.1, p.2)) := by
      unfold TargetHelper.transform
      exact dictOfList_map_rename m _ hnd hinj
    refine ⟨he, ?_, ?_⟩
    · rw [he]; simp [List.map_map]
    · rw [he]; simp [dictKeys, List.map_map]

/-- Witness for C7 (amended): a two-key record with an injective renaming. -/
theorem C7_remap_values_keys_witness :
    transform [("a", JVal.vint 1), ("b", JVal.vint 2)] ⟨none, some [("a", "c")], none⟩ =
      [("c", JVal.vint 1), ("b", JVal.vint 2)] ∧
    (transform [("a", JVal.vint 1), ("b", JVal.vint 2)]
      ⟨none, some [("a", "c")], none⟩).map Prod.snd = [JVal.vint 1, JVal.vint 2] :=
  have h := (C7_remap_values_keys [("a", JVal.vint 1), ("b", JVal.vint 2)]
    ⟨none, some [("a", "c")], none⟩ (by simp [dictKeys])).1 (by
      intro a ha b hb
      simp [dictKeys] at ha hb
      rcases ha with ha | ha <;> rcases hb with hb | hb <;>
        simp [ha, hb, renameKey, dictGet])
  ⟨by rw [h.1]; rfl, by rw [h.2.1]; rfl⟩

/-- Claim C10: processing a STATE message only overwrites the single
pending-checkpoint slot: the schemas, key properties, headers, validators
and the contents of every output file are identical before and after the
step. -/
theorem C10_state_frame (cfg : Config) (s : PState) (v : JVal) :
    step cfg s (Msg.state v) = Except.ok { s with state := v } ∧
    ({ s with state := v } : PState).schemas = s.schemas ∧
    ({ s with state := v } : PState).key_properties = s.key_properties ∧
    ({ s with state := v } : PState).headers = s.headers ∧
    ({ s with state := v } : PState).validators = s.validators ∧
    ({ s with state := v } : PState).fs = s.fs :=
  ⟨rfl, rfl, rfl, rfl, rfl, rfl⟩

theorem leaves_not_map (d : List (String × JVal)) : ∀ w ∈ leaves d, w.isMap = false := by
  induction d using leaves.induct with
  | case1 => intro w hw; simp [leaves] at hw
  | case2 k kvs rest ih1 ih2 =>
    intro w hw
    rw [show leaves ((k, JVal.vmap kvs) :: rest) = leaves kvs ++ leaves rest from by
      simp [leaves]] at hw
    rcases List.mem_append.mp hw with h | h
    · exact ih1 w h
    · exact ih2 w h
  | case3 k v rest hnm ih =>
    intro w hw
    have he : leaves ((k, v) :: rest) = v :: leaves rest := by
      cases v with
      | vmap kvs => exact absurd rfl (hnm kvs)
      | vnull => simp [leaves]
      | vbool b => simp [leaves]
      | vint n => simp [leaves]
      | vstr s => simp [leaves]
      | vlist xs => simp [leaves]
    rw [he] at hw
    rcases List.mem_cons.mp hw with h | h
    · rw [h]
      cases v with
      | vmap kvs => exact absurd rfl (hnm kvs)
      | vnull => rfl
      | vbool b => rfl
      | vint n => rfl
      | vstr s => rfl
      | vlist xs => rfl
    · exact ih w h

theorem flattenItems_value_leaf (d : List (String × JVal)) (pk sep : String) :
    ∀ p ∈ flattenItems d pk sep, ∃ w, w ∈ leaves d ∧ p.2 = leafOut w := by
  induction d, pk, sep using flattenItems.induct with
  | case1 pk sep => intro p hp; simp [flattenItems] at hp
  | case2 k kvs rest pk sep nk ih1 ih2 =>
    intro p hp
    rw [show flattenItems ((k, JVal.vmap kvs) :: rest) pk sep =
        dictOfList (flattenItems kvs (if pk = "" then k else pk ++ sep ++ k) sep) ++
          flattenItems rest pk sep from by simp [flattenItems]] at hp
    have hl : leaves ((k, JVal.vmap kvs) :: rest) = leaves kvs ++ leaves rest := by
      simp [leaves]
    rcases List.mem_append.mp hp with h | h
    · obtain ⟨w, hw, hpw⟩ := ih1 p (mem_dictOfList p _ h)
      exact ⟨w, by rw [hl]; exact List.mem_append_left _ hw, hpw⟩
    · obtain ⟨w, hw, hpw⟩ := ih2 p h
      exact ⟨w, by rw [hl]; exact List.mem_append_right _ hw, hpw⟩
  | case3 k xs rest pk sep ih =>
    intro p hp
    rw [show flattenItems ((k, JVal.vlist xs) :: rest) pk sep =
        ((if pk = "" then k else pk ++ sep ++ k), JVal.vstr (pyRepr (JVal.vlist xs))) ::
          flattenItems rest pk sep from by simp [flattenItems]] at hp
    have hl : leaves ((k, JVal.vlist xs) :: rest) = JVal.vlist xs :: leaves rest := by
      simp [leaves]
    rcases List.mem_cons.mp hp with h | h
    · exact ⟨JVal.vlist xs, by rw [hl]; exact List.mem_cons_self _ _, by rw [h]; rfl⟩
    · obtain ⟨w, hw, hpw⟩ := ih p h
      exact ⟨w, by rw [hl]; exact List.mem_cons_of_mem _ hw, hpw⟩
  | case4 k v rest pk sep hnm hnl ih =>
    intro p hp
    have he : flattenItems ((k, v) :: rest) pk sep =
        ((if pk = "" then k else pk ++ sep ++ k), v) :: flattenItems rest pk sep := by
      cases v with
      | vmap kvs => exact absurd rfl (hnm kvs)
      | vlist ys => exact absurd rfl (hnl ys)
      | vnull => simp [flattenItems]
      | vbool b => simp [flattenItems]
      | vint n => simp [flattenItems]
      | vstr s => simp [flattenItems]
    have hl : leaves ((k, v) :: rest) = v :: leaves rest := by
      cases v with
      | vmap kvs => exact absurd rfl (hnm kvs)
      | vnull => simp [leaves]
      | vbool b => simp [leaves]
      | vint n => simp [leaves]
      | vstr s => simp [leaves]
      | vlist ys => simp [leaves]
    rw [he] at hp
    rcases List.mem_cons.mp hp with h | h
    · refine ⟨v, by rw [hl]; exact List.mem_cons_self _ _, ?_⟩
      have hv : leafOut v = v := by
        cases v with
        | vmap kvs => exact absurd rfl (hnm kvs)
        | vlist ys => exact absurd rfl (hnl ys)
        | vnull => rfl
        | vbool b => rfl
        | vint n => rfl
        | vstr s => rfl
      rw [h, hv]
    · obtain ⟨w, hw, hpw⟩ := ih p h
      exact ⟨w, by rw [hl]; exact List.mem_cons_of_mem _ hw, hpw⟩

theorem leafOut_not_list (w : JVal) : (leafOut w).isList = false := by
  cases w <;> rfl

theorem leafOut_not_map (w : JVal) (h : w.isMap = false) : (leafOut w).isMap = false := by
  cases w <;> simp_all [leafOut, JVal.isMap]

theorem leafOut_eq_self (w : JVal) (h : w.isList = false) : leafOut w = w := by
  cases w <;> simp_all [leafOut, JVal.isList]

theorem flattenItems_of_flat (x : List (String × JVal)) (sep : String)
    (hx : ∀ p ∈ x, (p.2).isMap = false) :
    flattenItems x "" sep = x.map (fun p => (p.1, leafOut p.2)) := by
  induction x with
  | nil => simp [flattenItems]
  | cons p rest ih =>
    obtain ⟨k, v⟩ := p
    have hv : (v : JVal).isMap = false := hx (k, v) (List.mem_cons_self _ _)
    have hrest : ∀ q ∈ rest, (q.2).isMap = false :=
      fun q hq => hx q (List.mem_cons_of_mem _ hq)
    cases v with
    | vmap kvs => simp [JVal.isMap] at hv
    | vlist xs => simp [flattenItems, ih hrest, leafOut]
    | vnull => simp [flattenItems, ih hrest, leafOut]
    | vbool b => simp [flattenItems, ih hrest, leafOut]
    | vint n => simp [flattenItems, ih hrest, leafOut]
    | vstr s => simp [flattenItems, ih hrest, leafOut]

/-- Claim C8: every value of a flattened record comes from a non-mapping
leaf of the input record; array leaves are replaced by their Python str, so
arrays (and mappings) never appear as values of a flattened record, and
every non-array leaf passes through unchanged. -/
theorem C8_flatten_values (d : List (String × JVal)) (pk sep : String)
    (p : String × JVal) (hp : p ∈ flatten d pk sep) :
    (p.2).isList = false ∧ (p.2).isMap = false ∧
    ∃ w, w ∈ leaves d ∧ p.2 = leafOut w ∧
      (w.isList = false → p.2 = w) ∧
      (∀ xs, w = JVal.vlist xs → p.2 = JVal.vstr (pyRepr (JVal.vlist xs))) := by
  have hp' : p ∈ flattenItems d pk sep := mem_dictOfList p _ hp
  obtain ⟨w, hw, hpw⟩ := flattenItems_value_leaf d pk sep p hp'
  have hwm : w.isMap = false := leaves_not_map d w hw
  refine ⟨by rw [hpw]; exact leafOut_not_list w,
    by rw [hpw]; exact leafOut_not_map w hwm, w, hw, hpw, ?_, ?_⟩
  · intro hwl; rw [hpw, leafOut_eq_self w hwl]
  · intro xs hxs; rw [hpw, hxs]; rfl

/-- Witness for C8 at a nested record with an array leaf. -/
theorem C8_flatten_values_witness :
    ((("a__b", JVal.vstr "[1]") : String × JVal).2).isList = false ∧
    ((("a__b", JVal.vstr "[1]") : String × JVal).2).isMap = false ∧
    ∃ w, w ∈ leaves [("a", JVal.vmap [("b", JVal.vlist [JVal.vint 1])]), ("c", JVal.vint 2)] ∧
      (("a__b", JVal.vstr "[1]") : String × JVal).2 = leafOut w ∧
      (w.isList = false → (("a__b", JVal.vstr "[1]") : String × JVal).2 = w) ∧
      (∀ xs, w = JVal.vlist xs →
        (("a__b", JVal.vstr "[1]") : String × JVal).2 = JVal.vstr (pyRepr (JVal.vlist xs))) :=
  C8_flatten_values [("a", JVal.vmap [("b", JVal.vlist [JVal.vint 1])]), ("c", JVal.vint 2)]
    "" "__" ("a__b", JVal.vstr "[1]") (by
      rw [show flatten [("a", JVal.vmap [("b", JVal.vlist [JVal.vint 1])]), ("c", JVal.vint 2)]
        "" "__" = [("a__b", JVal.vstr "[1]"), ("c", JVal.vint 2)] from by
          simp only [flatten, flattenItems]; rfl]
      exact List.mem_cons_self _ _)

/-- Claim C9: flatten is idempotent on already-flat mappings (mappings with
no nested mapping values). -/
theorem C9_flatten_idempotent (x : List (String × JVal)) (sep : String)
    (hx : ∀ p ∈ x, (p.2).isMap = false) :
    flatten (flatten x "" sep) "" sep = flatten x "" sep := by
  have h1 : flattenItems x "" sep = x.map (fun p => (p.1, leafOut p.2)) :=
    flattenItems_of_flat x sep hx
  have hflat : ∀ p ∈ flatten x "" sep, (p.2).isMap = false ∧ (p.2).isList = false := by
    intro p hp
    have hp2 := mem_dictOfList p _ hp
    rw [h1] at hp2
    obtain ⟨q, hq, hpq⟩ := List.mem_map.mp hp2
    constructor
    · rw [← hpq]; exact leafOut_not_map q.2 (hx q hq)
    · rw [← hpq]; exact leafOut_not_list q.2
  have h2 : flattenItems (flatten x "" sep) "" sep =
      (flatten x "" sep).map (fun p => (p.1, leafOut p.2)) :=
    flattenItems_of_flat _ sep (fun p hp => (hflat p hp).1)
  have h3 : (flatten x "" sep).map (fun p => (p.1, leafOut p.2)) = flatten x "" sep := by
    have hpt : ∀ p ∈ flatten x "" sep,
        (fun p : String × JVal => (p.1, leafOut p.2)) p = id p := by
      intro p hp
      have := leafOut_eq_self p.2 (hflat p hp).2
      simp [this]
    rw [List.map_congr_left hpt, List.map_id]
  calc flatten (flatten x "" sep) "" sep
      = dictOfList (flattenItems (flatten x "" sep) "" sep) := rfl
    _ = dictOfList (flatten x "" sep) := by rw [h2, h3]
    _ = flatten x "" sep := dictOfList_eq_self _ (nodup_dictKeys_dictOfList _)

/-- Witness for C9 at a flat record containing an array value. -/
theorem C9_flatten_idempotent_witness :
    flatten (flatten [("a", JVal.vint 1), ("b", JVal.vlist [JVal.vint 2])] "" "__") "" "__" =
      flatten [("a", JVal.vint 1), ("b", JVal.vlist [JVal.vint 2])] "" "__" :=
  C9_flatten_idempotent [("a", JVal.vint 1), ("b", JVal.vlist [JVal.vint 2])] "__" (by decide)

theorem appendRecord_schemas (cfg : Config) (s : PState) (stream : String)
    (rec : List (String × JVal)) :
    (appendRecord cfg s stream rec).schemas = s.schemas := rfl

theorem appendRecord_validators (cfg : Config) (s : PState) (stream : String)
    (rec : List (String × JVal)) :
    (appendRecord cfg s stream rec).validators = s.validators := rfl

theorem appendRecord_key_properties (cfg : Config) (s : PState) (stream : String)
    (rec : List (String × JVal)) :
    (appendRecord cfg s stream rec).key_properties = s.key_properties := rfl

theorem appendRecord_state (cfg : Config) (s : PState) (stream : String)
    (rec : List (String × JVal)) :
    (appendRecord cfg s stream rec).state = JVal.vnull := rfl

theorem appendRecord_headers_eq (cfg : Config) (s : PState) (stream : String)
    (rec : List (String × JVal)) :
    (appendRecord cfg s stream rec).headers =
      if dictGet s.headers stream = none ∧
          ¬(dictGet s.fs (filenameFor cfg stream)).getD [] = [] then
        dictInsert s.headers stream
          (if ((dictGet s.fs (filenameFor cfg stream)).getD []).headD [] = [] then
            dictKeys (transform (flatten rec "" "__") (smFor cfg stream))
          else ((dictGet s.fs (filenameFor cfg stream)).getD []).headD [])
      else if (dictGet s.fs (filenameFor cfg stream)).getD [] = [] then
        dictInsert s.headers stream
          (dictKeys (transform (flatten rec "" "__") (smFor cfg stream)))
      else s.headers := rfl

theorem appendRecord_fs_eq (cfg : Config) (s : PState) (stream : String)
    (rec : List (String × JVal)) :
    (appendRecord cfg s stream rec).fs =
      dictInsert s.fs (filenameFor cfg stream)
        ((dictGet s.fs (filenameFor cfg stream)).getD [] ++
          (if (dictGet s.fs (filenameFor cfg stream)).getD [] = [] then
            [(dictGet (appendRecord cfg s stream rec).headers stream).getD []] else []) ++
          [rowFor ((dictGet (appendRecord cfg s stream rec).headers stream).getD [])
            (transform (flatten rec "" "__") (smFor cfg stream))]) := rfl

theorem step_record_ok_elim (cfg : Config) (s : PState) (stream : String)
    (rec : List (String × JVal)) (s' : PState)
    (h : step cfg s (Msg.record stream rec) = Except.ok s') :
    s' = appendRecord cfg s stream rec := by
  simp only [step] at h
  split at h
  · exact absurd h (by simp)
  · split at h
    · exact absurd h (by simp)
    · split at h
      · injection h with h2
        exact h2.symm
      · exact absurd h (by simp)

theorem step_record_ok_intro (cfg : Config) (s : PState) (stream : String)
    (rec : List (String × JVal)) (sch0 sch : JVal)
    (hs : dictGet s.schemas stream = some sch0)
    (hv : dictGet s.validators stream = some sch)
    (hval : cfg.valid sch rec = true) :
    step cfg s (Msg.record stream rec) = Except.ok (appendRecord cfg s stream rec) := by
  simp only [step]
  rw [hs, hv]
  simp [hval]

theorem step_record_unknown (cfg : Config) (s : PState) (stream : String)
    (rec : List (String × JVal)) (hs : dictGet s.schemas stream = none) :
    step cfg s (Msg.record stream rec) = Except.error (Err.unknownStream stream) := by
  simp only [step]
  rw [hs]
  rfl

theorem step_schema_eq (cfg : Config) (s : PState) (stream : String) (sch : JVal)
    (kp : List String) :
    step cfg s (Msg.schema stream sch kp) = Except.ok { s with
      schemas := dictInsert s.schemas stream sch,
      validators := dictInsert s.validators stream sch,
      key_properties := dictInsert s.key_properties stream kp } := rfl

theorem headerInv_init (cfg : Config) (fs0 : List (String × List (List String))) :
    HeaderInv cfg (initState fs0) := by
  intro st hd hh
  simp [initState, dictGet] at hh

theorem headerInv_append (cfg : Config) (s : PState) (stream : String)
    (rec : List (String × JVal)) (hInv : HeaderInv cfg s) :
    HeaderInv cfg (appendRecord cfg s stream rec) := by
  intro st hd hh
  rw [appendRecord_fs_eq]
  by_cases hfn : filenameFor cfg st = filenameFor cfg stream
  · rw [hfn, dictGet_insert, if_pos rfl]
    exact ⟨_, rfl, by simp⟩
  · rw [dictGet_insert, if_neg hfn]
    have hh' : dictGet s.headers st = some hd := by
      by_cases hst : st = stream
      · exact absurd (by rw [hst]) hfn
      · rw [appendRecord_headers_eq] at hh
        split at hh
        · rwa [dictGet_insert, if_neg hst] at hh
        · split at hh
          · rwa [dictGet_insert, if_neg hst] at hh
          · exact hh
    exact hInv st hd hh'

theorem headerInv_step (cfg : Config) (s : PState) (m : Msg) (s' : PState)
    (hInv : HeaderInv cfg s) (h : step cfg s m = Except.ok s') : HeaderInv cfg s' := by
  cases m with
  | record stream rec =>
    rw [step_record_ok_elim cfg s stream rec s' h]
    exact headerInv_append cfg s stream rec hInv
  | state v =>
    have h2 : ({ s with state := v } : PState) = s' := by simpa [step] using h
    rw [← h2]
    intro st hd hh
    exact hInv st hd hh
  | schema stream sch kp =>
    have h2 : ({ s with
        schemas := dictInsert s.schemas stream sch,
        validators := dictInsert s.validators stream sch,
        key_properties := dictInsert s.key_properties stream kp } : PState) = s' := by
      simpa [step] using h
    rw [← h2]
    intro st hd hh
    exact hInv st hd hh
  | unknown =>
    have h2 : s = s' := by simpa [step] using h
    rw [← h2]
    exact hInv

theorem header_mono_append (cfg : Config) (s : PState) (stream : String)
    (rec : List (String × JVal)) (st : String) (hd : List String)
    (hInv : HeaderInv cfg s) (hh : dictGet s.headers st = some hd) :
    dictGet (appendRecord cfg s stream rec).headers st = some hd := by
  rw [appendRecord_headers_eq]
  by_cases hst : st = stream
  · subst hst
    obtain ⟨rows, hrows, hne⟩ := hInv st hd hh
    rw [if_neg (fun hand => Option.noConfusion (hh.symm.trans hand.1)),
      if_neg (by rw [hrows]; simpa using hne)]
    exact hh
  · split
    · rw [dictGet_insert, if_neg hst]; exact hh
    · split
      · rw [dictGet_insert, if_neg hst]; exact hh
      · exact hh

theorem header_mono_step (cfg : Config) (s : PState) (m : Msg) (s' : PState)
    (st : String) (hd : List String) (hInv : HeaderInv cfg s)
    (h : step cfg s m = Except.ok s') (hh : dictGet s.headers st = some hd) :
    dictGet s'.headers st = some hd := by
  cases m with
  | record stream rec =>
    rw [step_record_ok_elim cfg s stream rec s' h]
    exact header_mono_append cfg s stream rec st hd hInv hh
  | state v =>
    have h2 : ({ s with state := v } : PState) = s' := by simpa [step] using h
    rw [← h2]; exact hh
  | schema stream sch kp =>
    have h2 : ({ s with
        schemas := dictInsert s.schemas stream sch,
        validators := dictInsert s.validators stream sch,
        key_properties := dictInsert s.key_properties stream kp } : PState) = s' := by
      simpa [step] using h
    rw [← h2]; exact hh
  | unknown =>
    have h2 : s = s' := by simpa [step] using h
    rw [← h2]; exact hh

theorem runAcc_header_mono (cfg : Config) (msgs : List Msg) :
    ∀ (s : PState) (stream : String) (hd : List String), HeaderInv cfg s →
      dictGet s.headers stream = some hd →
      dictGet (runAcc cfg msgs s).1.headers stream = some hd := by
  induction msgs with
  | nil => intro s stream hd _ hh; exact hh
  | cons m ms ih =>
    intro s stream hd hInv hh
    simp only [runAcc]
    cases hs : step cfg s m with
    | ok s' =>
      exact ih s' stream hd (headerInv_step cfg s m s' hInv hs)
        (header_mono_step cfg s m s' stream hd hInv hs hh)
    | error e => exact hh

theorem appendRecord_headers_isSome (cfg : Config) (s : PState) (stream : String)
    (rec : List (String × JVal)) :
    ∃ hd, dictGet (appendRecord cfg s stream rec).headers stream = some hd := by
  rw [appendRecord_headers_eq]
  split
  · exact ⟨_, by rw [dictGet_insert, if_pos rfl]⟩
  · split
    · exact ⟨_, by rw [dictGet_insert, if_pos rfl]⟩
    next h1 h2 =>
      cases hh : dictGet s.headers stream with
      | some hd => exact ⟨hd, rfl⟩
      | none => exact absurd ⟨hh, h2⟩ h1

theorem rowFor_length (hdr : List String) (r : List (String × JVal)) :
    (rowFor hdr r).length = hdr.length := by
  simp [rowFor]

theorem dictGet_filter_mem (r : List (String × JVal)) (hdr : List String)
    (c : String) (hc : c ∈ hdr) :
    dictGet (r.filter (fun p => decide (p.1 ∈ hdr))) c = dictGet r c := by
  induction r with
  | nil => rfl
  | cons p rest ih =>
    obtain ⟨k, v⟩ := p
    by_cases hk : k = c
    · subst hk
      have hp : decide ((((k, v)) : String × JVal).1 ∈ hdr) = true := by
        simpa using hc
      simp [List.filter_cons, hp, dictGet]
    · cases hp : decide ((((k, v)) : String × JVal).1 ∈ hdr) with
      | true => simp [List.filter_cons, hp, dictGet, hk, ih]
      | false => simp [List.filter_cons, hp, dictGet, hk, ih]

/-- Claim C2: once the header of a stream is determined it never changes for
the rest of the run (first conjunct, over any message suffix, under the
loop invariant that a determined header means a non-empty file); every
successful record append writes exactly one data row for that stream's
file, with exactly len(header) cells (second conjunct, with the header line
prepended only when the file was empty); a data row always has exactly
len(header) cells (third conjunct); keys of the transformed record outside
the header never influence the row and are silently dropped (fourth
conjunct); and header columns missing from the record are written as the
empty cell (fifth conjunct). -/
theorem C2_header_stability :
    (∀ (cfg : Config) (msgs : List Msg) (s : PState) (stream : String) (hd : List String),
      HeaderInv cfg s → dictGet s.headers stream = some hd →
      dictGet (runAcc cfg msgs s).1.headers stream = some hd) ∧
    (∀ (cfg : Config) (s : PState) (stream : String) (rec : List (String × JVal)) (s' : PState),
      step cfg s (Msg.record stream rec) = Except.ok s' →
      ∃ hd, dictGet s'.headers stream = some hd ∧
        dictGet s'.fs (filenameFor cfg stream) =
          some ((dictGet s.fs (filenameFor cfg stream)).getD [] ++
            (if (dictGet s.fs (filenameFor cfg stream)).getD [] = [] then [hd] else []) ++
            [rowFor hd (transform (flatten rec "" "__") (smFor cfg stream))]) ∧
        (rowFor hd (transform (flatten rec "" "__") (smFor cfg stream))).length = hd.length) ∧
    (∀ (hdr : List String) (r : List (String × JVal)), (rowFor hdr r).length = hdr.length) ∧
    (∀ (hdr : List String) (r : List (String × JVal)),
      rowFor hdr (r.filter (fun p => decide (p.1 ∈ hdr))) = rowFor hdr r) ∧
    (∀ (hdr : List String) (r : List (String × JVal)),
      rowFor hdr r = hdr.map (fun c =>
        match dictGet r c with
        | some v => csvField v
        | none => "")) := by
  refine ⟨?_, ?_, rowFor_length, ?_, ?_⟩
  · intro cfg msgs s stream hd hInv hh
    exact runAcc_header_mono cfg msgs s stream hd hInv hh
  · intro cfg s stream rec s' h
    rw [step_record_ok_elim cfg s stream rec s' h]
    obtain ⟨hd, hhd⟩ := appendRecord_headers_isSome cfg s stream rec
    refine ⟨hd, hhd, ?_, rowFor_length hd _⟩
    rw [appendRecord_fs_eq, dictGet_insert, if_pos rfl, hhd]
    rfl
  · intro hdr r
    unfold rowFor
    apply List.map_congr_left
    intro c hc
    rw [dictGet_filter_mem r hdr c hc]
  · intro hdr r
    unfold rowFor
    apply List.map_congr_left
    intro c _
    cases h : dictGet r c with
    | none => rfl
    | some v => rfl

/-- Witness for C2: a state that already has the header of stream "A"
determined (with the matching non-empty file) keeps it across a further
message. -/
theorem C2_header_stability_witness :
    dictGet (runAcc cfgEx [Msg.state (JVal.vint 7)]
      ⟨JVal.vnull, [], [], [("A", ["a"])], [],
        [("A-20200101T000000.csv", [["a"]])]⟩).1.headers "A" = some ["a"] :=
  C2_header_stability.1 cfgEx [Msg.state (JVal.vint 7)]
    ⟨JVal.vnull, [], [], [("A", ["a"])], [], [("A-20200101T000000.csv", [["a"]])]⟩
    "A" ["a"]
    (by
      intro st hd hh
      by_cases hA : "A" = st
      · rw [← hA] at hh ⊢
        exact ⟨[["a"]], rfl, by simp⟩
      · have hh2 : (if "A" = st then some ["a"] else (none : Option (List String))) =
            some hd := hh
        rw [if_neg hA] at hh2
        exact Option.noConfusion hh2)
    rfl

theorem step_schemas_none (cfg : Config) (s : PState) (m : Msg) (s' : PState)
    (A : String) (h : step cfg s m = Except.ok s') (hm : isSchemaFor A m = false)
    (hA : dictGet s.schemas A = none) : dictGet s'.schemas A = none := by
  cases m with
  | record stream rec =>
    rw [step_record_ok_elim cfg s stream rec s' h, appendRecord_schemas]
    exact hA
  | state v =>
    have h2 : ({ s with state := v } : PState) = s' := by simpa [step] using h
    rw [← h2]; exact hA
  | schema stream sch kp =>
    have h2 : ({ s with
        schemas := dictInsert s.schemas stream sch,
        validators := dictInsert s.validators stream sch,
        key_properties := dictInsert s.key_properties stream kp } : PState) = s' := by
      simpa [step] using h
    rw [← h2]
    show dictGet (dictInsert s.schemas stream sch) A = none
    have hne : ¬stream = A := by simpa [isSchemaFor] using hm
    rw [dictGet_insert, if_neg (fun hh : A = stream => hne hh.symm)]
    exact hA
  | unknown =>
    have h2 : s = s' := by simpa [step] using h
    rw [← h2]; exact hA

theorem runAcc_ok_schemas_none (cfg : Config) (msgs : List Msg) :
    ∀ (s s1 : PState) (A : String), runAcc cfg msgs s = (s1, none) →
      (∀ m ∈ msgs, isSchemaFor A m = false) → dictGet s.schemas A = none →
      dictGet s1.schemas A = none := by
  induction msgs with
  | nil =>
    intro s s1 A h _ hA
    have : s = s1 := congrArg Prod.fst h
    rw [← this]; exact hA
  | cons m ms ih =>
    intro s s1 A h hm hA
    simp only [runAcc] at h
    cases hs : step cfg s m with
    | ok s' =>
      rw [hs] at h
      exact ih s' s1 A h (fun x hx => hm x (List.mem_cons_of_mem _ hx))
        (step_schemas_none cfg s m s' A hs (hm m (List.mem_cons_self _ _)) hA)
    | error e =>
      rw [hs] at h
      exact Option.noConfusion (show (some e : Option Err) = none from congrArg Prod.snd h)

theorem runAcc_ok_no_record (cfg : Config) (msgs : List Msg) :
    ∀ (s s1 : PState) (A : String), runAcc cfg msgs s = (s1, none) →
      (∀ m ∈ msgs, isSchemaFor A m = false) → dictGet s.schemas A = none →
      ∀ m ∈ msgs, isRecordFor A m = false := by
  induction msgs with
  | nil => intro s s1 A _ _ _ m hm; simp at hm
  | cons m ms ih =>
    intro s s1 A h hm hA x hx
    simp only [runAcc] at h
    cases hs : step cfg s m with
    | ok s' =>
      rw [hs] at h
      rcases List.mem_cons.mp hx with hx1 | hx1
      · subst hx1
        cases x with
        | record stream rec =>
          by_cases hst : stream = A
          · subst hst
            rw [step_record_unknown cfg s stream rec hA] at hs
            exact Except.noConfusion hs
          · simpa [isRecordFor] using hst
        | state v => rfl
        | schema st sc kp => rfl
        | unknown => rfl
      · exact ih s' s1 A h (fun y hy => hm y (List.mem_cons_of_mem _ hy))
          (step_schemas_none cfg s m s' A hs (hm m (List.mem_cons_self _ _)) hA) x hx1
    | error e =>
      rw [hs] at h
      exact Option.noConfusion (show (some e : Option Err) = none from congrArg Prod.snd h)

/-- Claim C4: a RECORD message for a stream that has seen no SCHEMA message
is fatal: the run stops exactly there with the unknown-stream error, the
state (headers, files) is the one produced by the prefix alone, and that
prefix contains no RECORD message for the stream, so no row for it was ever
appended to any output file. -/
theorem C4_record_before_schema (cfg : Config)
    (fs0 : List (String × List (List String))) (pre post : List Msg) (A : String)
    (r : List (String × JVal)) (s1 : PState)
    (hpre : ∀ m ∈ pre, isSchemaFor A m = false)
    (hok : runAcc cfg pre (initState fs0) = (s1, none)) :
    runAcc cfg (pre ++ Msg.record A r :: post) (initState fs0) =
      (s1, some (Err.unknownStream A)) ∧
    (∀ m ∈ pre, isRecordFor A m = false) := by
  have hA0 : dictGet (initState fs0).schemas A = none := rfl
  have hA1 : dictGet s1.schemas A = none :=
    runAcc_ok_schemas_none cfg pre (initState fs0) s1 A hok hpre hA0
  constructor
  · rw [runAcc_append_ok cfg pre (Msg.record A r :: post) (initState fs0) s1 hok]
    simp only [runAcc]
    rw [step_record_unknown cfg s1 A r hA1]
  · exact runAcc_ok_no_record cfg pre (initState fs0) s1 A hok hpre hA0

/-- Witness for C4: a schema for stream "B" followed by a record for the
never-declared stream "A". -/
theorem C4_record_before_schema_witness :
    runAcc cfgEx ([Msg.schema "B" (JVal.vmap []) []] ++
        Msg.record "A" [("x", JVal.vint 1)] :: []) (initState []) =
      ((⟨JVal.vnull, [("B", JVal.vmap [])], [("B", [])], [], [("B", JVal.vmap [])], []⟩ :
        PState), some (Err.unknownStream "A")) ∧
    (∀ m ∈ [Msg.schema "B" (JVal.vmap []) []], isRecordFor "A" m = false) :=
  C4_record_before_schema cfgEx [] [Msg.schema "B" (JVal.vmap []) []] [] "A"
    [("x", JVal.vint 1)]
    (⟨JVal.vnull, [("B", JVal.vmap [])], [("B", [])], [], [("B", JVal.vmap [])], []⟩ : PState)
    (by decide) rfl

/-- Claim C6 is false as stated in one corner: when the destination file
exists and is non-empty but its first line parses to an empty row, the code
does not take the header from that first line — the falsy check
"first_line if first_line else ..." (src/target_csv.py line 93) falls back
to the transformed record's keys.  Concretely, with an existing file whose
only row is empty, the header becomes the record's keys, not the empty
first line. -/
theorem C6_blank_first_line_cex :
    dictGet (⟨JVal.vnull, [("A", JVal.vmap [])], [], [], [("A", JVal.vmap [])],
        [("A-20200101T000000.csv", [[]])]⟩ : PState).fs (filenameFor cfgEx "A") =
      some [[]] ∧
    step cfgEx (⟨JVal.vnull, [("A", JVal.vmap [])], [], [], [("A", JVal.vmap [])],
        [("A-20200101T000000.csv", [[]])]⟩ : PState) (Msg.record "A" [("a", JVal.vint 1)]) =
      Except.ok (appendRecord cfgEx (⟨JVal.vnull, [("A", JVal.vmap [])], [], [],
        [("A", JVal.vmap [])], [("A-20200101T000000.csv", [[]])]⟩ : PState) "A"
        [("a", JVal.vint 1)]) ∧
    dictGet (appendRecord cfgEx (⟨JVal.vnull, [("A", JVal.vmap [])], [], [],
        [("A", JVal.vmap [])], [("A-20200101T000000.csv", [[]])]⟩ : PState) "A"
        [("a", JVal.vint 1)]).headers "A" = some ["a"] ∧
    (["a"] : List String) ≠ ([] : List String) := by
  refine ⟨rfl, rfl, ?_, by simp⟩
  have hflat : flatten [("a", JVal.vint 1)] "" "__" = [("a", JVal.vint 1)] := by
    simp only [flatten, flattenItems]; rfl
  rw [appendRecord_headers_eq, if_pos ⟨rfl, by decide⟩, dictGet_insert, if_pos rfl, hflat]
  rfl

/-- Claim C6 (amended): on the first record appended for a stream in a run,
if the destination file exists and is non-empty and its first row is not
empty, the header is taken from that first row and no header line is
written (only the data row is appended); if the file is absent or empty,
the header is the transformed record's keys in encounter order and the
header line is written before the first data row.  (When the file is
non-empty but its first row is empty, the code falls back to the
transformed record's keys; see the counterexample.) -/
theorem C6_first_record_header (cfg : Config) (s : PState) (stream : String)
    (rec : List (String × JVal)) (s' : PState)
    (hnew : dictGet s.headers stream = none)
    (h : step cfg s (Msg.record stream rec) = Except.ok s') :
    (∀ rows, dictGet s.fs (filenameFor cfg stream) = some rows → rows ≠ [] →
      rows.headD [] ≠ [] →
      dictGet s'.headers stream = some (rows.headD []) ∧
      dictGet s'.fs (filenameFor cfg stream) =
        some (rows ++ [rowFor (rows.headD [])
          (transform (flatten rec "" "__") (smFor cfg stream))])) ∧
    ((dictGet s.fs (filenameFor cfg stream)).getD [] = [] →
      dictGet s'.headers stream =
        some (dictKeys (transform (flatten rec "" "__") (smFor cfg stream))) ∧
      dictGet s'.fs (filenameFor cfg stream) =
        some [dictKeys (transform (flatten rec "" "__") (smFor cfg stream)),
          rowFor (dictKeys (transform (flatten rec "" "__") (smFor cfg stream)))
            (transform (flatten rec "" "__") (smFor cfg stream))]) := by
  rw [step_record_ok_elim cfg s stream rec s' h]
  constructor
  · intro rows hrows hne hhead
    have hget : (dictGet s.fs (filenameFor cfg stream)).getD [] = rows := by
      rw [hrows]; rfl
    have hheaders : dictGet (appendRecord cfg s stream rec).headers stream =
        some (rows.headD []) := by
      rw [appendRecord_headers_eq, if_pos ⟨hnew, by rw [hget]; exact hne⟩,
        dictGet_insert, if_pos rfl, hget, if_neg hhead]
    refine ⟨hheaders, ?_⟩
    rw [appendRecord_fs_eq, dictGet_insert, if_pos rfl, hheaders, hget, if_neg hne]
    simp
  · intro hempty
    have hheaders : dictGet (appendRecord cfg s stream rec).headers stream =
        some (dictKeys (transform (flatten rec "" "__") (smFor cfg stream))) := by
      rw [appendRecord_headers_eq, if_neg (fun hand => hand.2 hempty), if_pos hempty,
        dictGet_insert, if_pos rfl]
    refine ⟨hheaders, ?_⟩
    rw [appendRecord_fs_eq, dictGet_insert, if_pos rfl, hheaders, hempty, if_pos rfl]
    simp

/-- Witness for C6 at a registered stream with no existing file. -/
theorem C6_first_record_header_witness :
    (dictGet (⟨JVal.vnull, [("A", JVal.vmap [])], [], [], [("A", JVal.vmap [])],
        []⟩ : PState).fs (filenameFor cfgEx "A")).getD [] = [] ∧
    dictGet (appendRecord cfgEx (⟨JVal.vnull, [("A", JVal.vmap [])], [], [],
        [("A", JVal.vmap [])], []⟩ : PState) "A" [("a", JVal.vint 1)]).headers "A" =
      some (dictKeys (transform (flatten [("a", JVal.vint 1)] "" "__") (smFor cfgEx "A"))) :=
  have h := (C6_first_record_header cfgEx
    (⟨JVal.vnull, [("A", JVal.vmap [])], [], [], [("A", JVal.vmap [])], []⟩ : PState)
    "A" [("a", JVal.vint 1)]
    (appendRecord cfgEx
      (⟨JVal.vnull, [("A", JVal.vmap [])], [], [], [("A", JVal.vmap [])], []⟩ : PState)
      "A" [("a", JVal.vint 1)]) rfl rfl).2 rfl
  ⟨rfl, h.1⟩

theorem runAcc_cons_ok (cfg : Config) (m : Msg) (ms : List Msg) (s s' : PState)
    (h : step cfg s m = Except.ok s') : runAcc cfg (m :: ms) s = runAcc cfg ms s' := by
  simp only [runAcc]
  rw [h]

theorem step_state_eq (cfg : Config) (s : PState) (v : JVal) :
    step cfg s (Msg.state v) = Except.ok { s with state := v } := rfl

theorem emit_state_ne_null (v : JVal) (h : v ≠ JVal.vnull) : emit_state v = [v] := by
  unfold emit_state
  cases v with
  | vnull => exact absurd rfl h
  | vbool b => rfl
  | vint n => rfl
  | vstr s => rfl
  | vlist xs => rfl
  | vmap kvs => rfl

theorem runAcc_debounce_aux (cfg : Config) (s : PState) (A : String) (sch : JVal)
    (r1 r2 : List (String × JVal)) (s1v s2v : JVal)
    (hs : dictGet s.schemas A = some sch) (hv : dictGet s.validators A = some sch)
    (hv1 : cfg.valid sch r1 = true) (hv2 : cfg.valid sch r2 = true) :
    runAcc cfg [Msg.record A r1, Msg.state s1v, Msg.record A r2, Msg.state s2v] s =
      ({ appendRecord cfg ({ appendRecord cfg s A r1 with state := s1v }) A r2
          with state := s2v }, none) := by
  rw [runAcc_cons_ok cfg _ _ s _ (step_record_ok_intro cfg s A r1 sch sch hs hv hv1)]
  rw [runAcc_cons_ok cfg _ _ _ _ (step_state_eq cfg (appendRecord cfg s A r1) s1v)]
  have hs2 : dictGet ({ appendRecord cfg s A r1 with state := s1v } : PState).schemas A =
      some sch := hs
  have hv2' : dictGet ({ appendRecord cfg s A r1 with state := s1v } : PState).validators A =
      some sch := hv
  rw [runAcc_cons_ok cfg _ _ _ _ (step_record_ok_intro cfg _ A r2 sch sch hs2 hv2' hv2)]
  rw [runAcc_cons_ok cfg _ _ _ _ (step_state_eq cfg _ s2v)]
  rfl

/-- Claim C3: for the input SCHEMA(A), RECORD(A, r1), STATE(s1), RECORD(A, r2),
STATE(s2), the run succeeds, the final pending state is s2, and exactly one
checkpoint line is emitted at end of input, carrying s2 and only s2 (so
never s1).  More generally, every successfully appended record clears the
pending checkpoint to None (second conjunct), and at most one checkpoint
line is ever emitted for a whole run (third conjunct). -/
theorem C3_checkpoint_debounce (cfg : Config)
    (fs0 : List (String × List (List String))) (A : String) (sch : JVal)
    (kp : List String) (r1 r2 : List (String × JVal)) (s1v s2v : JVal)
    (hv1 : cfg.valid sch r1 = true) (hv2 : cfg.valid sch r2 = true)
    (hnn : s2v ≠ JVal.vnull) :
    ((runAcc cfg [Msg.schema A sch kp, Msg.record A r1, Msg.state s1v,
        Msg.record A r2, Msg.state s2v] (initState fs0)).2 = none ∧
      (runAcc cfg [Msg.schema A sch kp, Msg.record A r1, Msg.state s1v,
        Msg.record A r2, Msg.state s2v] (initState fs0)).1.state = s2v ∧
      runEmitted cfg [Msg.schema A sch kp, Msg.record A r1, Msg.state s1v,
        Msg.record A r2, Msg.state s2v] (initState fs0) = [s2v] ∧
      ∀ x ∈ runEmitted cfg [Msg.schema A sch kp, Msg.record A r1, Msg.state s1v,
        Msg.record A r2, Msg.state s2v] (initState fs0), x = s2v) ∧
    (∀ (cfg' : Config) (s : PState) (stream : String) (rec : List (String × JVal))
      (s' : PState), step cfg' s (Msg.record stream rec) = Except.ok s' →
        s'.state = JVal.vnull) ∧
    (∀ v : JVal, (emit_state v).length ≤ 1) := by
  have h0 : runAcc cfg [Msg.schema A sch kp, Msg.record A r1, Msg.state s1v,
      Msg.record A r2, Msg.state s2v] (initState fs0) =
      runAcc cfg [Msg.record A r1, Msg.state s1v, Msg.record A r2, Msg.state s2v]
        (⟨JVal.vnull, [(A, sch)], [(A, kp)], [], [(A, sch)], fs0⟩ : PState) :=
    runAcc_cons_ok cfg _ _ _ _ rfl
  have h1 := runAcc_debounce_aux cfg
    (⟨JVal.vnull, [(A, sch)], [(A, kp)], [], [(A, sch)], fs0⟩ : PState) A sch r1 r2
    s1v s2v (by simp [dictGet]) (by simp [dictGet]) hv1 hv2
  refine ⟨⟨?_, ?_, ?_, ?_⟩, ?_, ?_⟩
  · rw [h0, h1]
  · rw [h0, h1]
  · unfold runEmitted
    rw [h0, h1]
    exact emit_state_ne_null s2v hnn
  · intro x hx
    unfold runEmitted at hx
    rw [h0, h1] at hx
    have hx2 : x ∈ [s2v] := by
      rw [← emit_state_ne_null s2v hnn]
      exact hx
    simpa using hx2
  · intro cfg' s stream rec s' h
    rw [step_record_ok_elim cfg' s stream rec s' h]
    exact appendRecord_state cfg' s stream rec
  · intro v
    unfold emit_state
    split <;> simp

/-- Witness for C3 at a concrete five-message input. -/
theorem C3_checkpoint_debounce_witness :
    (runAcc cfgEx [Msg.schema "users" (JVal.vmap []) [], Msg.record "users" [("id", JVal.vint 1)],
      Msg.state (JVal.vmap [("users", JVal.vint 1)]), Msg.record "users" [("id", JVal.vint 2)],
      Msg.state (JVal.vmap [("users", JVal.vint 2)])] (initState [])).2 = none ∧
    runEmitted cfgEx [Msg.schema "users" (JVal.vmap []) [], Msg.record "users" [("id", JVal.vint 1)],
      Msg.state (JVal.vmap [("users", JVal.vint 1)]), Msg.record "users" [("id", JVal.vint 2)],
      Msg.state (JVal.vmap [("users", JVal.vint 2)])] (initState []) =
      [JVal.vmap [("users", JVal.vint 2)]] :=
  have h := C3_checkpoint_debounce cfgEx [] "users" (JVal.vmap []) []
    [("id", JVal.vint 1)] [("id", JVal.vint 2)]
    (JVal.vmap [("users", JVal.vint 1)]) (JVal.vmap [("users", JVal.vint 2)])
    rfl rfl (fun hh => JVal.noConfusion hh)
  ⟨h.1.1, h.1.2.2.1⟩
